import Mathlib

/-!
Verification development for the MailMind repository.

This file gives a shallow embedding, in Lean 4, of the parts of the
repository that the specification claims are about:

* `src/memory/conversation_store.py` — the conversation memory store
  (entities, relationships, threads, messages, context summaries);
* `src/memory/memory_integration.py` — the extraction rules feeding the store;
* `src/gmail_agent.py` — the thread decision logic
  (`get_latest_message_in_thread`, `has_been_replied_to_by_agent`).

Modelling conventions, stated once here:

* Python floats (timestamps, relationship strength) are modelled as `ℚ`
  with exact arithmetic; the literal 0.1 of the source is `1/10`.
* Python dicts are modelled as association lists in insertion order
  (Python 3.7+ dicts preserve insertion order); `dictSet` has the update
  semantics of `d[k] = v` and `List.lookup` the semantics of `d.get(k)`.
* Python sets of strings are modelled as duplicate-free lists; `setInsert`
  is `set.add`.
* The Python built-in sorted / list.sort is a stable sort; a stable sort
  by a total preorder has a unique output, so it is modelled by
  `List.insertionSort` (structural, hence kernel-reducible), which is
  stable with the same tie-breaking (earlier listed element first).
* Each call to `time.time()` inside one store operation is modelled by a
  single explicit clock argument `now` supplied by the caller.
* Python string operations are modelled at the character-list level
  (ASCII, which covers every string the source compares), because the
  corresponding `String` library functions do not reduce in the kernel.
* `save()` performs file I/O only; it does not change the in-memory
  state, so it is modelled as the identity on the store.
-/

/-- Lexicographic strict comparison of character lists by code point,
the order Python uses to compare `str` values (used by `min`/`max` in
`add_relationship`). -/
def lexLt : List Char → List Char → Bool
  | [], [] => false
  | [], _ :: _ => true
  | _ :: _, [] => false
  | a :: as, b :: bs =>
    if a.toNat < b.toNat then true
    else if b.toNat < a.toNat then false
    else lexLt as bs

/-- Python `min(a, b)` on strings: `a` if `a <= b` else `b`. -/
def pyMinStr (a b : String) : String := if lexLt b.toList a.toList then b else a

/-- Python `max(a, b)` on strings: `b` if `b > a` (ties keep `a`). -/
def pyMaxStr (a b : String) : String := if lexLt a.toList b.toList then b else a

/-- Does the second list occur as a contiguous prefix of the first
argument list? (helper for substring search). -/
def charsStartWith : List Char → List Char → Bool
  | _, [] => true
  | [], _ :: _ => false
  | a :: as, b :: bs => a == b && charsStartWith as bs

/-- Helper for `strContains`: does `needle` occur contiguously in `hay`? -/
def charsContain (hay needle : List Char) : Bool :=
  match hay with
  | [] => charsStartWith [] needle
  | _ :: rest => charsStartWith hay needle || charsContain rest needle

/-- Python `sub in hay` on strings (contiguous substring test; the empty
string is contained in every string, as in Python). -/
def strContains (hay sub : String) : Bool := charsContain hay.toList sub.toList

/-- Python `str.lower()` (ASCII model, matching every string the source
lowercases). -/
def pyLower (s : String) : String := String.mk (s.toList.map Char.toLower)

/-- Python `str.replace(' ', '_')`: a single-character replacement is a
character map. -/
def underscoreSpaces (s : String) : String :=
  String.mk (s.toList.map (fun c => if c == ' ' then '_' else c))

/-- The characters Python `str.strip()` and the regex class `\s` treat as
whitespace (ASCII). -/
def isPySpace (c : Char) : Bool :=
  c == ' ' || c == '\t' || c == '\n' || c == '\r' || c == '\x0b' || c == '\x0c'

/-- Python `str.strip()`. -/
def pyStrip (s : String) : String :=
  String.mk (((s.toList.dropWhile isPySpace).reverse.dropWhile isPySpace).reverse)

/-- Insert into a modelled Python set of strings (`set.add`): no effect
when the element is already present. -/
def setInsert (l : List String) (a : String) : List String :=
  if l.contains a then l else l ++ [a]

/-- Python `set(xs)` for a list of strings: deduplicate. -/
def setOfList (xs : List String) : List String := xs.foldl setInsert []

/-- Python dict update `d[k] = v`: replace in place when the key exists
(keeping its position, as Python dicts do), otherwise append. -/
def dictSet {α : Type} : List (String × α) → String → α → List (String × α)
  | [], k, v => [(k, v)]
  | (k', v') :: rest, k, v =>
    if k' == k then (k, v) :: rest else (k', v') :: dictSet rest k v

/-! ## Data model of `conversation_store.py` -/

/-- `Entity` dataclass of `conversation_store.py`. The open `metadata`
dict is carried as an opaque string map; no modelled operation reads or
writes it. -/
structure Entity where
  name : String
  type : String
  aliases : List String
  metadata : List (String × String)
  first_seen : ℚ
  last_seen : ℚ
deriving DecidableEq

/-- `Entity.update_seen` (`self.last_seen = time.time()`). -/
def Entity.update_seen (e : Entity) (now : ℚ) : Entity :=
  { e with last_seen := now }

/-- `Entity.add_alias`: `if alias and alias.strip(): self.aliases.add(alias.strip())`. -/
def Entity.add_alias (e : Entity) (a : String) : Entity :=
  if a ≠ "" ∧ pyStrip a ≠ "" then
    { e with aliases := setInsert e.aliases (pyStrip a) }
  else e

/-- `Entity.matches`: case-insensitive containment of the name or any
alias in the text. -/
def Entity.matches (e : Entity) (text : String) : Bool :=
  let t := pyLower text
  strContains t (pyLower e.name) || e.aliases.any (fun a => strContains t (pyLower a))

/-- `Relationship` dataclass of `conversation_store.py`; `strength` is a
float in `[0,1]` in the source, modelled as `ℚ`. -/
structure Relationship where
  entity1_id : String
  entity2_id : String
  relationship_type : String
  strength : ℚ
  metadata : List (String × String)
  first_seen : ℚ
  last_seen : ℚ
deriving DecidableEq

/-- `Relationship.update_seen`. -/
def Relationship.update_seen (r : Relationship) (now : ℚ) : Relationship :=
  { r with last_seen := now }

/-- `Relationship.strengthen(amount=0.1)`:
`self.strength = min(1.0, self.strength + amount)`. The source default
`amount=0.1` is passed explicitly as `1/10` at the one call site. -/
def Relationship.strengthen (r : Relationship) (amount : ℚ) : Relationship :=
  { r with strength := min 1 (r.strength + amount) }

/-- `ConversationMessage` dataclass. -/
structure ConversationMessage where
  message_id : String
  thread_id : String
  sender : String
  recipients : List String
  subject : String
  content : String
  timestamp : ℚ
  is_from_agent : Bool
  entities : List String
deriving DecidableEq

/-- `ConversationThread` dataclass. -/
structure ConversationThread where
  thread_id : String
  subject : String
  participants : List String
  messages : List ConversationMessage
  last_updated : ℚ
  topics : List String
deriving DecidableEq

/-- `ConversationThread.add_message`: append the message, accumulate the
sender and every recipient into `participants`, touch `last_updated`. -/
def ConversationThread.add_message (t : ConversationThread) (now : ℚ)
    (message : ConversationMessage) : ConversationThread :=
  { t with
    messages := t.messages ++ [message],
    participants :=
      message.recipients.foldl setInsert (setInsert t.participants message.sender),
    last_updated := now }

/-- Sort messages by `timestamp` ascending, as
`sorted(self.messages, key=lambda m: m.timestamp)` does (stable). -/
def sortMessagesByTimestamp (l : List ConversationMessage) : List ConversationMessage :=
  List.insertionSort (fun a b => a.timestamp ≤ b.timestamp) l

/-- Python slice `l[-n:]` for `n` as used on the sorted message list:
for `n = 0` the slice `l[-0:]` is `l[0:]`, the whole list. -/
def pySliceLast {α : Type} (n : Nat) (l : List α) : List α :=
  if n = 0 then l else l.drop (l.length - n)

/-- `ConversationThread.get_context_summary(max_messages=5)`.
The call `time.strftime('%Y-%m-%d %H:%M:%S', time.localtime(ts))` is
environment-dependent (local timezone), so the date formatter is passed
in as `fmt`. The source default `max_messages=5` is passed explicitly by
callers. Note the source renders the fixed string "You (Sofia)" for
agent messages. -/
def ConversationThread.get_context_summary (t : ConversationThread)
    (fmt : ℚ → String) (max_messages : Nat) : String :=
  let sorted_messages := sortMessagesByTimestamp t.messages
  let recent_messages :=
    if sorted_messages.length > max_messages then pySliceLast max_messages sorted_messages
    else sorted_messages
  recent_messages.foldl
    (fun context msg =>
      let sender := if msg.is_from_agent then "You (Sofia)" else msg.sender
      context ++ "From: " ++ sender ++ "\n" ++ "Date: " ++ fmt msg.timestamp ++ "\n"
        ++ msg.content ++ "\n\n")
    ("Subject: " ++ t.subject ++ "\n\n")

/-- State of `ConversationMemoryStore`: the three dicts. -/
structure ConversationMemoryStore where
  entities : List (String × Entity)
  relationships : List (String × Relationship)
  threads : List (String × ConversationThread)
deriving DecidableEq

/-- A freshly constructed store (with no persisted document present). -/
def ConversationMemoryStore.empty : ConversationMemoryStore :=
  { entities := [], relationships := [], threads := [] }

/-- `ConversationMemoryStore.add_entity(name, entity_type, aliases=None)`.
Returns the entity id together with the updated store; the source never
raises here. The id is
`f"{entity_type}_{name.lower().replace(' ', '_')}"` — note the source
does NOT lowercase `entity_type`. -/
def ConversationMemoryStore.add_entity (s : ConversationMemoryStore) (now : ℚ)
    (name entity_type : String) (aliases : List String) :
    String × ConversationMemoryStore :=
  let entity_id := entity_type ++ "_" ++ underscoreSpaces (pyLower name)
  match s.entities.lookup entity_id with
  | some e =>
    let e' := aliases.foldl (fun acc a => acc.add_alias a) (e.update_seen now)
    (entity_id, { s with entities := dictSet s.entities entity_id e' })
  | none =>
    let e : Entity :=
      { name := name, type := entity_type, aliases := setOfList aliases,
        metadata := [], first_seen := now, last_seen := now }
    (entity_id, { s with entities := dictSet s.entities entity_id e })

/-- `ConversationMemoryStore.add_relationship(entity1_id, entity2_id,
relationship_type)`. The `raise ValueError(...)` of the source is
modelled as the `Except.error` component; the raise happens before any
mutation, so the store component is returned unchanged in that case. -/
def ConversationMemoryStore.add_relationship (s : ConversationMemoryStore) (now : ℚ)
    (entity1_id entity2_id relationship_type : String) :
    Except String String × ConversationMemoryStore :=
  if (s.entities.lookup entity1_id).isNone ∨ (s.entities.lookup entity2_id).isNone then
    (.error "Both entities must exist before creating a relationship", s)
  else
    let rel_id := pyMinStr entity1_id entity2_id ++ "_" ++ pyMaxStr entity1_id entity2_id
      ++ "_" ++ relationship_type
    match s.relationships.lookup rel_id with
    | some r =>
      let r' := (r.update_seen now).strengthen (1/10)
      (.ok rel_id, { s with relationships := dictSet s.relationships rel_id r' })
    | none =>
      let r : Relationship :=
        { entity1_id := entity1_id, entity2_id := entity2_id,
          relationship_type := relationship_type, strength := 0,
          metadata := [], first_seen := now, last_seen := now }
      (.ok rel_id, { s with relationships := dictSet s.relationships rel_id r })

/-- `ConversationMemoryStore.add_thread(thread_id, subject)`: upsert; for
an existing thread only `last_updated` is touched and the stored thread
is returned. -/
def ConversationMemoryStore.add_thread (s : ConversationMemoryStore) (now : ℚ)
    (thread_id subject : String) : ConversationThread × ConversationMemoryStore :=
  match s.threads.lookup thread_id with
  | some t =>
    let t' := { t with last_updated := now }
    (t', { s with threads := dictSet s.threads thread_id t' })
  | none =>
    let t : ConversationThread :=
      { thread_id := thread_id, subject := subject, participants := [],
        messages := [], last_updated := now, topics := [] }
    (t, { s with threads := dictSet s.threads thread_id t })

/-- `ConversationMemoryStore.extract_entities_from_text`: collect the id
of every stored entity whose name or alias occurs in the text, touching
its `last_seen`; iteration order is dict insertion order. -/
def ConversationMemoryStore.extract_entities_from_text (s : ConversationMemoryStore)
    (now : ℚ) (text : String) : List String × ConversationMemoryStore :=
  let hits := s.entities.filter (fun p => p.2.matches text)
  (hits.map Prod.fst,
    { s with entities :=
        s.entities.map (fun p => if p.2.matches text then (p.1, p.2.update_seen now) else p) })

/-- `ConversationMemoryStore.add_message(message_id, thread_id, sender,
recipients, subject, content, is_from_agent=False)`. The stored
`timestamp` is `time.time()` read inside the call (modelled by `now`);
no timestamp carried by the email is consulted — the source signature
has no timestamp parameter at all. The trailing `self.save()` is file
I/O only and leaves the in-memory state unchanged. -/
def ConversationMemoryStore.add_message (s : ConversationMemoryStore) (now : ℚ)
    (message_id thread_id sender : String) (recipients : List String)
    (subject content : String) (is_from_agent : Bool) :
    ConversationMessage × ConversationMemoryStore :=
  let ts := s.add_thread now thread_id subject
  let thread := ts.1
  let s1 := ts.2
  let es := s1.extract_entities_from_text now content
  let message : ConversationMessage :=
    { message_id := message_id, thread_id := thread_id, sender := sender,
      recipients := recipients, subject := subject, content := content,
      timestamp := now, is_from_agent := is_from_agent, entities := es.1 }
  let thread' := thread.add_message now message
  (message, { es.2 with threads := dictSet es.2.threads thread_id thread' })

/-! ## Decision logic of `gmail_agent.py` -/

/-- A raw Gmail API message as the decision functions consume it:
`id`, `internalDate` (milliseconds, `int(x.get('internalDate', 0))`),
`labelIds`, and the headers of `payload.headers` as name/value pairs. -/
structure GmailMessage where
  id : String
  internalDate : Int
  labelIds : List String
  headers : List (String × String)
deriving DecidableEq

/-- `messages.sort(key=lambda x: int(x.get('internalDate', 0)), reverse=True)`:
stable descending sort by `internalDate`. -/
def sortGmailDesc (l : List GmailMessage) : List GmailMessage :=
  List.insertionSort (fun a b => b.internalDate ≤ a.internalDate) l

/-- The agent-identity test of `get_latest_message_in_thread` on a
lowercased From value: `'me@' in v or 'your.email@' in v or 'sofia' in v`. -/
def agentFromLatest (v : String) : Bool :=
  let f := pyLower v
  strContains f "me@" || strContains f "your.email@" || strContains f "sofia"

/-- The agent-identity test of `has_been_replied_to_by_agent` on a
lowercased From value: `'me@' in v or 'your.email@' in v` (no "sofia"). -/
def agentFromReplied (v : String) : Bool :=
  let f := pyLower v
  strContains f "me@" || strContains f "your.email@"

/-- Does the message carry a From header recognized as the agent by the
given value test? The source loop returns skip at the first matching
From header and keeps scanning past non-matching ones, i.e. an
existential over the headers. -/
def hasAgentFromHeader (test : String → Bool) (m : GmailMessage) : Bool :=
  m.headers.any (fun h => pyLower h.1 == "from" && test h.2)

/-- `get_latest_message_in_thread` of `gmail_agent.py`, reduced to its
data content: from the raw message list of the thread it returns the
latest message (stable sort by `internalDate` descending, head) and the
`should_process` decision. `now_ms` is the `int(time.time() * 1000)`
reading; the source computes `is_recent` from it but — per its own
comment "We no longer process based on recency alone to avoid duplicate
replies" — never uses it in the decision, so the binding is dead here
exactly as in the source. -/
def get_latest_message_in_thread (now_ms : Int) (messages : List GmailMessage) :
    Option GmailMessage × Bool :=
  let sorted := sortGmailDesc messages
  match sorted with
  | [] => (none, false)
  | latest :: _ =>
    if hasAgentFromHeader agentFromLatest latest then
      (some latest, false)
    else
      let has_unread := sorted.any (fun m => m.labelIds.contains "UNREAD")
      let _is_recent := decide (now_ms - latest.internalDate < 86400000)
      (some latest, has_unread)

/-- `has_been_replied_to_by_agent` of `gmail_agent.py`: false for
threads with at most one message; otherwise true iff the latest message
(stable sort by `internalDate` descending) has a From header containing
"me@" or "your.email@". -/
def has_been_replied_to_by_agent (messages : List GmailMessage) : Bool :=
  let sorted := sortGmailDesc messages
  if sorted.length ≤ 1 then false
  else
    match sorted with
    | [] => false
    | latest :: _ => hasAgentFromHeader agentFromReplied latest

/-- Modelled from the spec: the reply message as it appears in the
thread after a successful `send_reply` — carrying the SENT label and the
From header the provider records for the account. The From value is a
parameter because the source never sets it itself. -/
def sentReplyMessage (newId agentFrom : String) (t : Int) : GmailMessage :=
  { id := newId, internalDate := t, labelIds := ["SENT"],
    headers := [("From", agentFrom)] }

/-- Modelled from the spec: the mailbox-side effect of `send_reply` on
the raw message list of a thread (spec §6 collaborator
`send_reply(thread_id, text)`): the sent reply appears as a further
message of the thread. -/
def threadAfterReply (messages : List GmailMessage) (newId agentFrom : String)
    (t : Int) : List GmailMessage :=
  messages ++ [sentReplyMessage newId agentFrom t]

/-- Modelled from the spec: the mailbox-side effect of
`remove_star_from_email` (Gmail modify with `removeLabelIds: ['STARRED']`)
on the raw message list. -/
def removeStarFromEmail (message_id : String) (messages : List GmailMessage) :
    List GmailMessage :=
  messages.map (fun m =>
    if m.id == message_id then
      { m with labelIds := m.labelIds.filter (fun l => l ≠ "STARRED") }
    else m)

/-! ## The date/deadline extraction rule of `memory_integration.py` (claim C3) -/

/-- Character class `[A-Za-z0-9\s,]` of the first date pattern. -/
def isDateChar (c : Char) : Bool :=
  c.isAlpha || c.isDigit || isPySpace c || c == ','

/-- Consume the given literal characters from the front of the list. -/
def dropLit : List Char → List Char → Option (List Char)
  | [], l => some l
  | _ :: _, [] => none
  | c :: cs, x :: xs => if x == c then dropLit cs xs else none

/-- Match the regex `[Dd]eadline\s*:\s*([A-Za-z0-9\s,]+)` at the head of
the list; on success return the (greedy, nonempty) capture and the rest
of the input after the whole match. -/
def matchDeadlineAt (l : List Char) : Option (List Char × List Char) :=
  match l with
  | [] => none
  | c :: rest =>
    if c == 'D' || c == 'd' then
      match dropLit "eadline".toList rest with
      | some r1 =>
        match r1.dropWhile isPySpace with
        | ':' :: r3 =>
          let r4 := r3.dropWhile isPySpace
          let cap := r4.takeWhile isDateChar
          if cap.isEmpty then none else some (cap, r4.drop cap.length)
        | _ => none
      | none => none
    else none

/-- `re.findall` scan for the pattern above: try a match at every
position left to right, continuing after the end of each match
(non-overlapping). Fuel equals the input length; every step strictly
shortens the remaining list (a successful match consumes at least the
leading character), so the fuel never runs out. -/
def findallDeadlineAux : Nat → List Char → List (List Char)
  | 0, _ => []
  | _ + 1, [] => []
  | fuel + 1, c :: rest =>
    match matchDeadlineAt (c :: rest) with
    | some (cap, l') => cap :: findallDeadlineAux fuel l'
    | none => findallDeadlineAux fuel rest

/-- All matches of `[Dd]eadline\s*:\s*([A-Za-z0-9\s,]+)` in the string,
as `re.findall` returns them (the capture group). -/
def findallDeadline (s : String) : List String :=
  (findallDeadlineAux s.toList.length s.toList).map String.mk

/-- The parameters `add_entity` declares in `conversation_store.py`:
`(self, name, entity_type, aliases)` — there is no `metadata`
parameter. -/
def addEntityParams : List String := ["name", "entity_type", "aliases"]

/-- Python call semantics: a call supplying a keyword argument that is
not among the callee parameters raises `TypeError`. -/
def pyKwCallOk (params kwargs : List String) : Bool :=
  kwargs.all (fun k => params.contains k)

/-- Helper loop for `extract_dates_rule` over the regex matches:
`date_str = match.strip(); if date_str:
self.memory.add_entity(date_str, "date", metadata={"is_deadline": True})`.
The call passes the keyword argument `metadata`, which `add_entity` does
not declare, so reaching it raises `TypeError` (modelled as `.error`). -/
def extractDatesGo : List String → Except String (List String)
  | [] => .ok []
  | m :: rest =>
    let date_str := pyStrip m
    if date_str ≠ "" then
      if pyKwCallOk addEntityParams ["metadata"] then
        (extractDatesGo rest).map (fun l => date_str :: l)
      else .error "TypeError: add_entity() got an unexpected keyword argument metadata"
    else extractDatesGo rest

/-- The date/deadline extraction step of
`MemoryIntegration._extract_entities_from_email` (its first date
pattern; the remaining three patterns are only reached when this one
finds no match and raise through the identical call). -/
def extract_dates_rule (content : String) : Except String (List String) :=
  extractDatesGo (findallDeadline content)

/-! ## Statements of the claims, as the specification words them -/

/-- The entity-id formula exactly as the specification states it:
lowercase(type) + "_" + lowercase(name) with spaces replaced by
underscores. (The source omits the lowercasing of the type.) -/
def claimedEntityId (name entity_type : String) : String :=
  pyLower entity_type ++ "_" ++ underscoreSpaces (pyLower name)

/-- One message of the context summary as the claim words it, with the
agent label a parameter (the claim says "You (Agent)", the source
renders "You (Sofia)"). -/
def renderedMessage (fmt : ℚ → String) (agentLabel : String)
    (msg : ConversationMessage) : String :=
  "From: " ++ (if msg.is_from_agent then agentLabel else msg.sender) ++ "\n"
    ++ "Date: " ++ fmt msg.timestamp ++ "\n" ++ msg.content ++ "\n\n"

/-- The last `n` elements of a list. -/
def takeLast {α : Type} (n : Nat) (l : List α) : List α := l.drop (l.length - n)

/-- Concatenation of a list of strings. -/
def strJoin : List String → String
  | [] => ""
  | s :: rest => s ++ strJoin rest

/-- The context summary as the claim words it: sort by timestamp
ascending, take the last `max_messages`, prefix with the subject line,
render each message with From/Date/content. -/
def contextSummarySpec (fmt : ℚ → String) (agentLabel : String)
    (t : ConversationThread) (max_messages : Nat) : String :=
  "Subject: " ++ t.subject ++ "\n\n"
    ++ strJoin ((takeLast max_messages (sortMessagesByTimestamp t.messages)).map
        (renderedMessage fmt agentLabel))

/-- The decision postcondition as claim C2 words it: process iff the
thread is non-empty, the latest message (by descending internal
timestamp) has no From header matching the system identity, and some
message of the thread carries the UNREAD label. -/
def shouldProcessClaim (messages : List GmailMessage) : Prop :=
  messages ≠ [] ∧
  (∀ latest, (sortGmailDesc messages).head? = some latest →
    hasAgentFromHeader agentFromLatest latest = false) ∧
  (∃ m ∈ messages, "UNREAD" ∈ m.labelIds)

/-- One call to `ConversationMemoryStore.add_message`, with the
`time.time()` reading of that call recorded as `now`. -/
structure AddMessageCall where
  now : ℚ
  message_id : String
  thread_id : String
  sender : String
  recipients : List String
  subject : String
  content : String
  is_from_agent : Bool

/-- Run one `add_message` call against a store. -/
def runCall (s : ConversationMemoryStore) (c : AddMessageCall) :
    ConversationMessage × ConversationMemoryStore :=
  s.add_message c.now c.message_id c.thread_id c.sender c.recipients c.subject
    c.content c.is_from_agent

/-- Run a sequence of `add_message` calls against the fresh store. -/
def runCalls (calls : List AddMessageCall) : ConversationMemoryStore :=
  calls.foldl (fun s c => (runCall s c).2) ConversationMemoryStore.empty

/-- Invariant used for claim C9: every stored message timestamp is at
most `bound` and, per thread, the timestamps are non-decreasing in
insertion order. -/
def storeTimesBounded (s : ConversationMemoryStore) (bound : ℚ) : Prop :=
  ∀ tid th, s.threads.lookup tid = some th →
    (∀ m ∈ th.messages, m.timestamp ≤ bound) ∧
    List.Chain' (· ≤ ·) (th.messages.map ConversationMessage.timestamp)

/-! ## Concrete inputs used by counterexamples and witnesses -/

/-- An inbound external message: starred, unread, From a plain external
address. -/
def msgExternal : GmailMessage :=
  { id := "m1", internalDate := 1000, labelIds := ["UNREAD", "STARRED", "INBOX"],
    headers := [("From", "Alice <alice@example.com>")] }

/-- The thread before the agent replies. -/
def threadBefore : List GmailMessage := [msgExternal]

/-- The thread after the agent (account address
`hemasankar007@gmail.com`, which contains none of the recognition
substrings "me@", "your.email@", "sofia") has replied and the star has
been removed. -/
def threadAfter : List GmailMessage :=
  threadAfterReply (removeStarFromEmail "m1" threadBefore) "r1"
    "Hemasankar <hemasankar007@gmail.com>" 2000

/-- A single sent message whose From value is the agent itself. -/
def msgAgentOnly : GmailMessage :=
  { id := "a1", internalDate := 500, labelIds := ["SENT"],
    headers := [("From", "me@example.com")] }

/-- A thread (for the C1 amended witness) replied to from an address the
recognition set does match. -/
def threadAfterRecognized : List GmailMessage :=
  threadAfterReply threadBefore "r2" "Sofia <sofia.agent@gmail.com>" 2000

/-- A store holding the two entities used by the C4/C5/C6 witnesses. -/
def storeWithTwoEntities : ConversationMemoryStore :=
  ((ConversationMemoryStore.empty.add_entity 1 "Alice" "person" []).2.add_entity 2
    "Acme" "organization" []).2

/-- A thread whose single message is from the agent, inserted after a
later-stamped message (timestamps out of insertion order), for the C8
counterexample and witness. -/
def threadForSummary : ConversationThread :=
  { thread_id := "t1", subject := "Hello",
    participants := ["alice@example.com"],
    messages :=
      [ { message_id := "m2", thread_id := "t1", sender := "agent",
          recipients := ["alice@example.com"], subject := "Hello",
          content := "my reply", timestamp := 200, is_from_agent := true,
          entities := [] },
        { message_id := "m1", thread_id := "t1", sender := "alice@example.com",
          recipients := ["agent"], subject := "Hello",
          content := "hi there", timestamp := 100, is_from_agent := false,
          entities := [] } ],
    last_updated := 200, topics := [] }

/-- A fixed date formatter standing in for the localtime-dependent
`time.strftime` call. -/
def fmtFixed : ℚ → String := fun _ => "1970-01-01 00:00:00"

/-- Two `add_message` calls with non-decreasing clock readings, for the
C9 witness. -/
def callsForC9 : List AddMessageCall :=
  [ { now := 1, message_id := "m1", thread_id := "t1", sender := "alice@a.com",
      recipients := ["bob@b.com"], subject := "s", content := "first",
      is_from_agent := false },
    { now := 2, message_id := "m2", thread_id := "t1", sender := "bob@b.com",
      recipients := ["alice@a.com"], subject := "s", content := "second",
      is_from_agent := true } ]

/-! ## Helper lemmas -/

theorem lookup_cons_self {α : Type} (k : String) (v : α) (rest : List (String × α)) :
    List.lookup k ((k, v) :: rest) = some v := by
  simp [List.lookup_cons]

theorem lookup_cons_of_ne {α : Type} {k k₀ : String} (v₀ : α) (rest : List (String × α))
    (h : k ≠ k₀) : List.lookup k ((k₀, v₀) :: rest) = List.lookup k rest := by
  simp [List.lookup_cons, beq_eq_false_iff_ne.mpr h]

theorem lookup_dictSet_self {α : Type} (l : List (String × α)) (k : String) (v : α) :
    (dictSet l k v).lookup k = some v := by
  induction l with
  | nil => simp [dictSet, lookup_cons_self k v []]
  | cons p rest ih =>
    obtain ⟨k₀, v₀⟩ := p
    by_cases h : k₀ = k
    · simp only [dictSet, beq_iff_eq, if_pos h]
      exact lookup_cons_self k v rest
    · simp only [dictSet, beq_iff_eq, if_neg h]
      rw [lookup_cons_of_ne v₀ _ (fun he => h he.symm)]
      exact ih

theorem lookup_dictSet_ne {α : Type} (l : List (String × α)) (k k' : String) (v : α)
    (h : k' ≠ k) : (dictSet l k v).lookup k' = l.lookup k' := by
  induction l with
  | nil => simp [dictSet, lookup_cons_of_ne v [] h]
  | cons p rest ih =>
    obtain ⟨k₀, v₀⟩ := p
    by_cases h0 : k₀ = k
    · subst h0
      simp only [dictSet, beq_self_eq_true, if_pos]
      rw [lookup_cons_of_ne v rest h, lookup_cons_of_ne v₀ rest h]
    · simp only [dictSet, beq_iff_eq, if_neg h0]
      by_cases h1 : k' = k₀
      · subst h1
        rw [lookup_cons_self, lookup_cons_self]
      · rw [lookup_cons_of_ne v₀ _ h1, lookup_cons_of_ne v₀ _ h1]
        exact ih

theorem dictSet_keys_of_lookup_isSome {α : Type} (l : List (String × α)) (k : String)
    (v : α) (h : (l.lookup k).isSome) :
    (dictSet l k v).map Prod.fst = l.map Prod.fst := by
  induction l with
  | nil => simp at h
  | cons p rest ih =>
    obtain ⟨k₀, v₀⟩ := p
    by_cases h0 : k₀ = k
    · simp [dictSet, h0]
    · rw [lookup_cons_of_ne v₀ rest (fun he => h0 he.symm)] at h
      simp only [dictSet, beq_iff_eq, if_neg h0, List.map_cons]
      rw [ih h]

theorem lookup_mem {α : Type} {l : List (String × α)} {k : String} {v : α}
    (h : l.lookup k = some v) : (k, v) ∈ l := by
  induction l with
  | nil => simp at h
  | cons p rest ih =>
    obtain ⟨k₀, v₀⟩ := p
    by_cases h0 : k = k₀
    · subst h0
      rw [lookup_cons_self] at h
      injection h with h
      subst h
      exact List.mem_cons_self _ _
    · rw [lookup_cons_of_ne v₀ rest h0] at h
      exact List.mem_cons_of_mem _ (ih h)

theorem mem_dictSet {α : Type} {l : List (String × α)} {k : String} {v : α}
    {p : String × α} (h : p ∈ dictSet l k v) : p = (k, v) ∨ p ∈ l := by
  induction l with
  | nil =>
    simp only [dictSet, List.mem_singleton] at h
    exact Or.inl h
  | cons q rest ih =>
    obtain ⟨k₀, v₀⟩ := q
    by_cases h0 : k₀ = k
    · simp only [dictSet, beq_iff_eq, if_pos h0] at h
      rcases List.mem_cons.mp h with h1 | h1
      · exact Or.inl h1
      · exact Or.inr (List.mem_cons_of_mem _ h1)
    · simp only [dictSet, beq_iff_eq, if_neg h0] at h
      rcases List.mem_cons.mp h with h1 | h1
      · exact Or.inr (h1 ▸ List.mem_cons_self _ _)
      · rcases ih h1 with h2 | h2
        · exact Or.inl h2
        · exact Or.inr (List.mem_cons_of_mem _ h2)

theorem lexLt_asymm : ∀ {a b : List Char}, lexLt a b = true → lexLt b a = false
  | [], [], h => Bool.noConfusion h
  | [], _ :: _, _ => rfl
  | _ :: _, [], h => Bool.noConfusion h
  | a :: as, b :: bs, h => by
    simp only [lexLt] at h ⊢
    by_cases h1 : a.toNat < b.toNat
    · rw [if_neg (Nat.lt_asymm h1), if_pos h1]
    · rw [if_neg h1] at h
      by_cases h2 : b.toNat < a.toNat
      · rw [if_pos h2] at h
        exact Bool.noConfusion h
      · rw [if_neg h2] at h
        rw [if_neg h2, if_neg h1]
        exact lexLt_asymm h

theorem eq_of_lexLt_false_false : ∀ {a b : List Char},
    lexLt a b = false → lexLt b a = false → a = b
  | [], [], _, _ => rfl
  | [], _ :: _, h, _ => Bool.noConfusion h
  | _ :: _, [], _, h => Bool.noConfusion h
  | a :: as, b :: bs, h1, h2 => by
    simp only [lexLt] at h1 h2
    by_cases ha : a.toNat < b.toNat
    · rw [if_pos ha] at h1
      exact Bool.noConfusion h1
    · by_cases hb : b.toNat < a.toNat
      · rw [if_pos hb] at h2
        exact Bool.noConfusion h2
      · rw [if_neg ha, if_neg hb] at h1
        rw [if_neg hb, if_neg ha] at h2
        have hchar : a = b :=
          Char.eq_of_val_eq (UInt32.eq_of_toBitVec_eq (BitVec.eq_of_toNat_eq
            (Nat.le_antisymm (Nat.le_of_not_lt hb) (Nat.le_of_not_lt ha))))
        rw [hchar, eq_of_lexLt_false_false h1 h2]

theorem bool_eq_false_of_ne_true {b : Bool} (h : ¬b = true) : b = false := by
  cases b
  · rfl
  · exact absurd rfl h

theorem pyMinStr_comm (a b : String) : pyMinStr a b = pyMinStr b a := by
  unfold pyMinStr
  by_cases h1 : lexLt b.toList a.toList = true
  · rw [if_pos h1, if_neg (by rw [lexLt_asymm h1]; exact Bool.noConfusion)]
  · have h1' := bool_eq_false_of_ne_true h1
    by_cases h2 : lexLt a.toList b.toList = true
    · rw [if_neg h1, if_pos h2]
    · have h2' := bool_eq_false_of_ne_true h2
      have heq : a = b := String.ext (by
        simpa [String.toList] using eq_of_lexLt_false_false h2' h1')
      rw [heq]

theorem pyMaxStr_comm (a b : String) : pyMaxStr a b = pyMaxStr b a := by
  unfold pyMaxStr
  by_cases h1 : lexLt b.toList a.toList = true
  · rw [if_pos h1, if_neg (by rw [lexLt_asymm h1]; exact Bool.noConfusion)]
  · have h1' := bool_eq_false_of_ne_true h1
    by_cases h2 : lexLt a.toList b.toList = true
    · rw [if_neg h1, if_pos h2]
    · have h2' := bool_eq_false_of_ne_true h2
      have heq : a = b := String.ext (by
        simpa [String.toList] using eq_of_lexLt_false_false h2' h1')
      rw [heq]

theorem mem_setInsert_of_mem {l : List String} {x a : String} (h : x ∈ l) :
    x ∈ setInsert l a := by
  unfold setInsert
  split
  · exact h
  · exact List.mem_append_left _ h

theorem add_alias_name (e : Entity) (a : String) : (e.add_alias a).name = e.name := by
  unfold Entity.add_alias
  split <;> rfl

theorem add_alias_type (e : Entity) (a : String) : (e.add_alias a).type = e.type := by
  unfold Entity.add_alias
  split <;> rfl

theorem add_alias_first_seen (e : Entity) (a : String) :
    (e.add_alias a).first_seen = e.first_seen := by
  unfold Entity.add_alias
  split <;> rfl

theorem add_alias_last_seen (e : Entity) (a : String) :
    (e.add_alias a).last_seen = e.last_seen := by
  unfold Entity.add_alias
  split <;> rfl

theorem mem_add_alias_of_mem {e : Entity} {x : String} (a : String) (h : x ∈ e.aliases) :
    x ∈ (e.add_alias a).aliases := by
  unfold Entity.add_alias
  split
  · exact mem_setInsert_of_mem h
  · exact h

theorem foldl_add_alias_name (as : List String) (e : Entity) :
    (as.foldl (fun acc a => acc.add_alias a) e).name = e.name := by
  induction as generalizing e with
  | nil => rfl
  | cons a rest ih => rw [List.foldl_cons, ih, add_alias_name]

theorem foldl_add_alias_type (as : List String) (e : Entity) :
    (as.foldl (fun acc a => acc.add_alias a) e).type = e.type := by
  induction as generalizing e with
  | nil => rfl
  | cons a rest ih => rw [List.foldl_cons, ih, add_alias_type]

theorem foldl_add_alias_first_seen (as : List String) (e : Entity) :
    (as.foldl (fun acc a => acc.add_alias a) e).first_seen = e.first_seen := by
  induction as generalizing e with
  | nil => rfl
  | cons a rest ih => rw [List.foldl_cons, ih, add_alias_first_seen]

theorem foldl_add_alias_last_seen (as : List String) (e : Entity) :
    (as.foldl (fun acc a => acc.add_alias a) e).last_seen = e.last_seen := by
  induction as generalizing e with
  | nil => rfl
  | cons a rest ih => rw [List.foldl_cons, ih, add_alias_last_seen]

theorem mem_foldl_add_alias_of_mem (as : List String) (e : Entity) {x : String}
    (h : x ∈ e.aliases) : x ∈ (as.foldl (fun acc a => acc.add_alias a) e).aliases := by
  induction as generalizing e with
  | nil => exact h
  | cons a rest ih => exact ih _ (mem_add_alias_of_mem a h)

theorem sortGmailDesc_perm (l : List GmailMessage) : (sortGmailDesc l).Perm l :=
  List.perm_insertionSort _ l

theorem sortGmailDesc_sorted (l : List GmailMessage) :
    List.Sorted (fun a b => b.internalDate ≤ a.internalDate) (sortGmailDesc l) := by
  haveI ht : IsTotal GmailMessage (fun a b => b.internalDate ≤ a.internalDate) :=
    ⟨fun a b => le_total b.internalDate a.internalDate⟩
  haveI htr : IsTrans GmailMessage (fun a b => b.internalDate ≤ a.internalDate) :=
    ⟨fun _ _ _ h1 h2 => le_trans h2 h1⟩
  exact List.sorted_insertionSort _ l

theorem sortGmailDesc_head_of_strict_max {l : List GmailMessage} {m : GmailMessage}
    (hm : m ∈ l) (hmax : ∀ m' ∈ l, m' ≠ m → m'.internalDate < m.internalDate) :
    (sortGmailDesc l).head? = some m := by
  have hperm := sortGmailDesc_perm l
  have hsorted := sortGmailDesc_sorted l
  have hm' : m ∈ sortGmailDesc l := hperm.mem_iff.mpr hm
  cases hs : sortGmailDesc l with
  | nil =>
    rw [hs] at hm'
    exact absurd hm' (List.not_mem_nil m)
  | cons h0 tl =>
    rw [hs] at hm' hsorted
    have hh0 : h0 ∈ l := by
      have : h0 ∈ sortGmailDesc l := by
        rw [hs]
        exact List.mem_cons_self _ _
      exact hperm.mem_iff.mp this
    by_cases he : h0 = m
    · rw [he]
      rfl
    · exfalso
      have hlt : h0.internalDate < m.internalDate := hmax h0 hh0 he
      have hmtl : m ∈ tl := by
        rcases List.mem_cons.mp hm' with h1 | h1
        · exact absurd h1.symm he
        · exact h1
      have hle : m.internalDate ≤ h0.internalDate := (List.sorted_cons.mp hsorted).1 m hmtl
      exact absurd hle (not_le.mpr hlt)

theorem get_latest_of_sort_nil {now_ms : Int} {msgs : List GmailMessage}
    (hs : sortGmailDesc msgs = []) :
    get_latest_message_in_thread now_ms msgs = (none, false) := by
  unfold get_latest_message_in_thread
  rw [hs]

theorem get_latest_of_sort_cons_agent {now_ms : Int} {msgs : List GmailMessage}
    {latest : GmailMessage} {tl : List GmailMessage}
    (hs : sortGmailDesc msgs = latest :: tl)
    (ha : hasAgentFromHeader agentFromLatest latest = true) :
    get_latest_message_in_thread now_ms msgs = (some latest, false) := by
  unfold get_latest_message_in_thread
  rw [hs]
  simp only [ha, if_pos]

theorem get_latest_of_sort_cons_nonagent {now_ms : Int} {msgs : List GmailMessage}
    {latest : GmailMessage} {tl : List GmailMessage}
    (hs : sortGmailDesc msgs = latest :: tl)
    (ha : hasAgentFromHeader agentFromLatest latest = false) :
    get_latest_message_in_thread now_ms msgs =
      (some latest, (latest :: tl).any (fun m => m.labelIds.contains "UNREAD")) := by
  unfold get_latest_message_in_thread
  rw [hs]
  simp only [ha, Bool.false_eq_true, if_false]

theorem sortGmailDesc_nil_iff {msgs : List GmailMessage} :
    sortGmailDesc msgs = [] ↔ msgs = [] := by
  constructor
  · intro hs
    have hperm := sortGmailDesc_perm msgs
    rw [hs] at hperm
    exact (hperm.symm.eq_nil)
  · intro h
    rw [h]
    rfl

/-! ## Claim theorems: decision logic -/

/-- C1, counterexample to the claim as stated: a starred unread thread is
evaluated as process (NeedsReply); the reply is sent (appearing in the
thread From the account address `hemasankar007@gmail.com`, which contains
none of the recognition substrings "me@", "your.email@", "sofia") and the
thread is marked processed by removing the star, which is the only
marking the source performs — the UNREAD label of the inbound message is
never cleared. The second evaluation of the same thread, before any new
external message, again returns process (a second NeedsReply), and the
already-replied check also returns false, so the same thread state leads
to a second reply — the claimed skip does not occur. -/
theorem c1_counterexample :
    (get_latest_message_in_thread 86400000 threadBefore).2 = true ∧
    (get_latest_message_in_thread 86400000 threadAfter).2 = true ∧
    has_been_replied_to_by_agent threadAfter = false := by decide

/-- C1 (amended): after the reply is sent, a second evaluation of the
thread before any new external message yields skip, PROVIDED the From
header of the recorded reply matches the agent-recognition set of the
source (lowercased value containing "me@", "your.email@" or "sofia"): the
reply is then the strictly newest message, the stable descending sort
puts it first, and the From check of `get_latest_message_in_thread`
returns the skip decision (the AgentIsLatest case). Without that proviso
the decision is driven by `has_unread`, which the source never clears
(see the counterexample). -/
theorem c1_second_evaluation_skips (messages : List GmailMessage)
    (newId agentFrom : String) (t now_ms : Int)
    (hlate : ∀ m ∈ messages, m.internalDate < t)
    (hfrom : agentFromLatest agentFrom = true) :
    (get_latest_message_in_thread now_ms
      (threadAfterReply messages newId agentFrom t)).2 = false := by
  have hmem : sentReplyMessage newId agentFrom t
      ∈ threadAfterReply messages newId agentFrom t := by
    unfold threadAfterReply
    exact List.mem_append_right _ (List.mem_cons_self _ _)
  have hmax : ∀ m' ∈ threadAfterReply messages newId agentFrom t,
      m' ≠ sentReplyMessage newId agentFrom t →
      m'.internalDate < (sentReplyMessage newId agentFrom t).internalDate := by
    intro m' hm' hne
    rcases List.mem_append.mp hm' with h1 | h1
    · exact hlate m' h1
    · exact absurd (List.mem_singleton.mp h1) hne
  have hhead := sortGmailDesc_head_of_strict_max hmem hmax
  have hagent : hasAgentFromHeader agentFromLatest
      (sentReplyMessage newId agentFrom t) = true := by
    unfold hasAgentFromHeader sentReplyMessage
    simp only [List.any_cons, List.any_nil, Bool.or_false]
    rw [hfrom]
    rfl
  cases hs : sortGmailDesc (threadAfterReply messages newId agentFrom t) with
  | nil =>
    rw [hs] at hhead
    exact Option.noConfusion hhead
  | cons latest tl =>
    rw [hs] at hhead
    have hl : latest = sentReplyMessage newId agentFrom t := by
      injection hhead
    rw [get_latest_of_sort_cons_agent hs (hl ▸ hagent)]

/-- C1 (amended) witness: concrete instantiation with a reply whose From
value contains "sofia" (and "me@"). -/
theorem c1_second_evaluation_skips_witness :
    (∀ m ∈ threadBefore, m.internalDate < 2000) ∧
    agentFromLatest "Sofia <sofia.agent@gmail.com>" = true ∧
    (get_latest_message_in_thread 0
      (threadAfterReply threadBefore "r2" "Sofia <sofia.agent@gmail.com>" 2000)).2 = false :=
  ⟨by decide, by decide,
    c1_second_evaluation_skips threadBefore "r2" "Sofia <sofia.agent@gmail.com>" 2000 0
      (by decide) (by decide)⟩

/-- C2: the decision `should_process` of `get_latest_message_in_thread`
is true exactly when the thread is non-empty, the latest message (stable
sort by internal timestamp descending) has no From header matching the
agent-recognition test, and some message of the thread carries the
UNREAD label; and the decision does not depend on the clock reading, so
recency (the computed-but-unused `is_recent`) never by itself authorizes
processing, and an empty thread always yields skip. -/
theorem c2_decision_postcondition (now_ms : Int) (messages : List GmailMessage) :
    ((get_latest_message_in_thread now_ms messages).2 = true ↔ shouldProcessClaim messages) ∧
    (∀ now' : Int,
      get_latest_message_in_thread now' messages =
        get_latest_message_in_thread now_ms messages) := by
  constructor
  · cases hs : sortGmailDesc messages with
    | nil =>
      have hnil : messages = [] := sortGmailDesc_nil_iff.mp hs
      rw [get_latest_of_sort_nil hs]
      unfold shouldProcessClaim
      simp [hnil]
    | cons latest tl =>
      have hne : messages ≠ [] := by
        intro h
        rw [sortGmailDesc_nil_iff.mpr h] at hs
        exact List.noConfusion hs
      by_cases hagent : hasAgentFromHeader agentFromLatest latest = true
      · rw [get_latest_of_sort_cons_agent hs hagent]
        unfold shouldProcessClaim
        constructor
        · intro h
          exact absurd h (by simp)
        · intro h
          have := h.2.1 latest (by rw [hs]; rfl)
          rw [hagent] at this
          exact Bool.noConfusion this
      · have hagent' := bool_eq_false_of_ne_true hagent
        rw [get_latest_of_sort_cons_nonagent hs hagent']
        unfold shouldProcessClaim
        constructor
        · intro h
          refine ⟨hne, ?_, ?_⟩
          · intro latest' hh
            rw [hs] at hh
            have : latest' = latest := by injection hh with h'; exact h'.symm
            rw [this]
            exact hagent'
          · rcases List.any_eq_true.mp h with ⟨m, hm, hunread⟩
            refine ⟨m, ?_, List.elem_iff.mp hunread⟩
            have : m ∈ sortGmailDesc messages := by rw [hs]; exact hm
            exact (sortGmailDesc_perm messages).mem_iff.mp this
        · rintro ⟨_, _, m, hm, hunread⟩
          apply List.any_eq_true.mpr
          refine ⟨m, ?_, List.elem_iff.mpr hunread⟩
          have : m ∈ sortGmailDesc messages :=
            (sortGmailDesc_perm messages).mem_iff.mpr hm
          rw [hs] at this
          exact this
  · intro now'
    rfl

/-- C10: for every thread with at most one message the already-replied
check returns false — the source returns early on `len(messages) <= 1`
before any From-header inspection, so even a single message From the
agent itself is not treated as replied. -/
theorem c10_single_message_not_replied (messages : List GmailMessage)
    (h : messages.length ≤ 1) : has_been_replied_to_by_agent messages = false := by
  unfold has_been_replied_to_by_agent
  have hlen : (sortGmailDesc messages).length = messages.length :=
    (sortGmailDesc_perm messages).length_eq
  simp only [hlen]
  rw [if_pos h]

/-- C10 witness: a thread whose single message is From `me@example.com`
(the agent itself) is still reported as not replied to. -/
theorem c10_single_message_not_replied_witness :
    ([msgAgentOnly] : List GmailMessage).length ≤ 1 ∧
    has_been_replied_to_by_agent [msgAgentOnly] = false :=
  ⟨by decide, c10_single_message_not_replied [msgAgentOnly] (by decide)⟩

/-! ## Evaluation lemmas for the store operations -/

theorem add_relationship_ok (s : ConversationMemoryStore) (now : ℚ) (a b t : String)
    (ha : (s.entities.lookup a).isSome = true)
    (hb : (s.entities.lookup b).isSome = true) :
    ∃ r', s.add_relationship now a b t =
      (.ok (pyMinStr a b ++ "_" ++ pyMaxStr a b ++ "_" ++ t),
        { s with relationships :=
            dictSet s.relationships (pyMinStr a b ++ "_" ++ pyMaxStr a b ++ "_" ++ t) r' }) ∧
      (s.relationships.lookup (pyMinStr a b ++ "_" ++ pyMaxStr a b ++ "_" ++ t) = none →
        r' = { entity1_id := a, entity2_id := b, relationship_type := t, strength := 0,
               metadata := [], first_seen := now, last_seen := now }) ∧
      (∀ r0, s.relationships.lookup (pyMinStr a b ++ "_" ++ pyMaxStr a b ++ "_" ++ t) = some r0 →
        r' = (r0.update_seen now).strengthen (1/10)) := by
  obtain ⟨ea, hea⟩ := Option.isSome_iff_exists.mp ha
  obtain ⟨eb, heb⟩ := Option.isSome_iff_exists.mp hb
  have hcond : ¬((s.entities.lookup a).isNone = true ∨ (s.entities.lookup b).isNone = true) := by
    rw [hea, heb]
    simp
  simp only [ConversationMemoryStore.add_relationship]
  rw [if_neg hcond]
  cases hrel : s.relationships.lookup (pyMinStr a b ++ "_" ++ pyMaxStr a b ++ "_" ++ t) with
  | none =>
    exact ⟨_, rfl, fun _ => rfl, fun r0 h0 => Option.noConfusion h0⟩
  | some r0 =>
    refine ⟨(r0.update_seen now).strengthen (1/10), rfl,
      fun hn => Option.noConfusion hn, fun r1 h1 => ?_⟩
    injection h1 with h1
    rw [h1]

theorem add_entity_eval (s : ConversationMemoryStore) (now : ℚ)
    (name ty : String) (aliases : List String) :
    ∃ e', s.add_entity now name ty aliases =
      (ty ++ "_" ++ underscoreSpaces (pyLower name),
        { s with entities :=
            dictSet s.entities (ty ++ "_" ++ underscoreSpaces (pyLower name)) e' }) ∧
      (s.entities.lookup (ty ++ "_" ++ underscoreSpaces (pyLower name)) = none →
        e' = { name := name, type := ty, aliases := setOfList aliases,
               metadata := [], first_seen := now, last_seen := now }) ∧
      (∀ e0, s.entities.lookup (ty ++ "_" ++ underscoreSpaces (pyLower name)) = some e0 →
        e' = aliases.foldl (fun acc x => acc.add_alias x) (e0.update_seen now)) := by
  simp only [ConversationMemoryStore.add_entity]
  cases hent : s.entities.lookup (ty ++ "_" ++ underscoreSpaces (pyLower name)) with
  | none =>
    exact ⟨_, rfl, fun _ => rfl, fun e0 h0 => Option.noConfusion h0⟩
  | some e0 =>
    refine ⟨aliases.foldl (fun acc x => acc.add_alias x) (e0.update_seen now), rfl,
      fun hn => Option.noConfusion hn, fun e1 h1 => ?_⟩
    injection h1 with h1
    rw [h1]

theorem add_relationship_error_of_missing (s : ConversationMemoryStore) (now : ℚ)
    (a b t : String)
    (h : s.entities.lookup a = none ∨ s.entities.lookup b = none) :
    s.add_relationship now a b t =
      (.error "Both entities must exist before creating a relationship", s) := by
  unfold ConversationMemoryStore.add_relationship
  rw [if_pos]
  rcases h with h1 | h1
  · exact Or.inl (by rw [h1]; rfl)
  · exact Or.inr (by rw [h1]; rfl)

/-! ## Claim theorems: the conversation store -/

/-- C6: `add_relationship` with an endpoint id absent from the entity
dict raises `ValueError` (the modelled error is returned, not swallowed
— the source has no handler around the raise) and the store is returned
unchanged, so no relationship record is added. -/
theorem c6_unknown_entity_error (s : ConversationMemoryStore) (now : ℚ)
    (a b t : String)
    (h : s.entities.lookup a = none ∨ s.entities.lookup b = none) :
    s.add_relationship now a b t =
      (.error "Both entities must exist before creating a relationship", s) :=
  add_relationship_error_of_missing s now a b t h

/-- C6 witness: upserting `works_at` between the absent `person_unknown`
and the present `organization_acme` fails with the error and leaves the
store unchanged. -/
theorem c6_unknown_entity_error_witness :
    (storeWithTwoEntities.entities.lookup "person_unknown" = none ∨
      storeWithTwoEntities.entities.lookup "organization_acme" = none) ∧
    storeWithTwoEntities.add_relationship 3 "person_unknown" "organization_acme" "works_at" =
      (.error "Both entities must exist before creating a relationship",
        storeWithTwoEntities) :=
  ⟨Or.inl (by decide),
    c6_unknown_entity_error storeWithTwoEntities 3 "person_unknown" "organization_acme"
      "works_at" (Or.inl (by decide))⟩

/-- C4: for existing entities `a`, `b`, upserting `(a,b,t)` and then
`(b,a,t)` resolves both calls to the same symmetric edge id
`min ++ "_" ++ max ++ "_" ++ t`; the second call leaves the key set of
the relationship dict unchanged (no second record), strengthens that one
edge by the capped increment, and touches `last_seen`, preserving the
endpoints and `first_seen`. -/
theorem c4_relationship_symmetry (s : ConversationMemoryStore) (now1 now2 : ℚ)
    (a b t : String) (ha : (s.entities.lookup a).isSome = true)
    (hb : (s.entities.lookup b).isSome = true) :
    ∃ rid s1 r1 s2 r2,
      rid = pyMinStr a b ++ "_" ++ pyMaxStr a b ++ "_" ++ t ∧
      s.add_relationship now1 a b t = (.ok rid, s1) ∧
      s1.add_relationship now2 b a t = (.ok rid, s2) ∧
      s1.relationships.lookup rid = some r1 ∧
      s2.relationships.lookup rid = some r2 ∧
      s2.relationships.map Prod.fst = s1.relationships.map Prod.fst ∧
      r2.strength = min 1 (r1.strength + 1/10) ∧
      r2.last_seen = now2 ∧
      r2.entity1_id = r1.entity1_id ∧ r2.entity2_id = r1.entity2_id ∧
      r2.first_seen = r1.first_seen := by
  obtain ⟨r1', heq1, _, _⟩ := add_relationship_ok s now1 a b t ha hb
  have hridcomm : pyMinStr b a ++ "_" ++ pyMaxStr b a ++ "_" ++ t =
      pyMinStr a b ++ "_" ++ pyMaxStr a b ++ "_" ++ t := by
    rw [pyMinStr_comm b a, pyMaxStr_comm b a]
  have hlook1 : (dictSet s.relationships
      (pyMinStr a b ++ "_" ++ pyMaxStr a b ++ "_" ++ t) r1').lookup
      (pyMinStr a b ++ "_" ++ pyMaxStr a b ++ "_" ++ t) = some r1' :=
    lookup_dictSet_self _ _ _
  obtain ⟨r2', heq2, _, hupd2⟩ :=
    add_relationship_ok
      { s with relationships :=
          dictSet s.relationships (pyMinStr a b ++ "_" ++ pyMaxStr a b ++ "_" ++ t) r1' }
      now2 b a t hb ha
  rw [hridcomm] at heq2 hupd2
  have hr2' : r2' = (r1'.update_seen now2).strengthen (1/10) := hupd2 r1' hlook1
  refine ⟨pyMinStr a b ++ "_" ++ pyMaxStr a b ++ "_" ++ t,
    _, r1', _, r2', rfl, heq1, heq2, hlook1, lookup_dictSet_self _ _ _, ?_, ?_, ?_, ?_, ?_, ?_⟩
  · exact dictSet_keys_of_lookup_isSome _ _ _ (by rw [hlook1]; rfl)
  · rw [hr2']
    rfl
  · rw [hr2']
    rfl
  · rw [hr2']
    rfl
  · rw [hr2']
    rfl
  · rw [hr2']
    rfl

/-- C4 witness: concrete instantiation on a store holding the entities
`person_alice` and `organization_acme`. -/
theorem c4_relationship_symmetry_witness :
    (storeWithTwoEntities.entities.lookup "person_alice").isSome = true ∧
    (storeWithTwoEntities.entities.lookup "organization_acme").isSome = true ∧
    ∃ rid s1 r1 s2 r2,
      rid = pyMinStr "person_alice" "organization_acme" ++ "_" ++
        pyMaxStr "person_alice" "organization_acme" ++ "_" ++ "works_at" ∧
      storeWithTwoEntities.add_relationship 3 "person_alice" "organization_acme" "works_at" =
        (.ok rid, s1) ∧
      s1.add_relationship 4 "organization_acme" "person_alice" "works_at" = (.ok rid, s2) ∧
      s1.relationships.lookup rid = some r1 ∧
      s2.relationships.lookup rid = some r2 ∧
      s2.relationships.map Prod.fst = s1.relationships.map Prod.fst ∧
      r2.strength = min 1 (r1.strength + 1/10) ∧
      r2.last_seen = 4 ∧
      r2.entity1_id = r1.entity1_id ∧ r2.entity2_id = r1.entity2_id ∧
      r2.first_seen = r1.first_seen :=
  ⟨by decide, by decide,
    c4_relationship_symmetry storeWithTwoEntities 3 4 "person_alice" "organization_acme"
      "works_at" (by decide) (by decide)⟩

/-- C5: the strength invariant of `add_relationship`. For any store
whose relationship strengths all lie in `[0,1]`: (a) after any
`add_relationship` call all strengths still lie in `[0,1]`; (b) on a
successful call, a freshly created edge has strength exactly `0`, and an
already existing edge is updated to exactly `min 1 (old + 1/10)`, which
is not below the old value; (c) no existing edge of the store ever has
its strength decreased (in particular it is never reset). -/
theorem c5_strength_invariant (s : ConversationMemoryStore) (now : ℚ) (a b t : String)
    (hinv : ∀ p ∈ s.relationships, 0 ≤ p.2.strength ∧ p.2.strength ≤ 1) :
    (∀ p ∈ (s.add_relationship now a b t).2.relationships,
        0 ≤ p.2.strength ∧ p.2.strength ≤ 1) ∧
    (∀ rid s', s.add_relationship now a b t = (.ok rid, s') →
        (s.relationships.lookup rid = none →
          ∃ r, s'.relationships.lookup rid = some r ∧ r.strength = 0) ∧
        (∀ r0, s.relationships.lookup rid = some r0 →
          ∃ r, s'.relationships.lookup rid = some r ∧
            r.strength = min 1 (r0.strength + 1/10) ∧ r0.strength ≤ r.strength)) ∧
    (∀ k r0, s.relationships.lookup k = some r0 →
        ∃ r, (s.add_relationship now a b t).2.relationships.lookup k = some r ∧
          r0.strength ≤ r.strength) := by
  by_cases hok : (s.entities.lookup a).isSome = true ∧ (s.entities.lookup b).isSome = true
  · obtain ⟨ha, hb⟩ := hok
    obtain ⟨r', heq, hnew, hupd⟩ := add_relationship_ok s now a b t ha hb
    have hstr : (s.relationships.lookup
        (pyMinStr a b ++ "_" ++ pyMaxStr a b ++ "_" ++ t) = none → r'.strength = 0) ∧
        (∀ r0, s.relationships.lookup
          (pyMinStr a b ++ "_" ++ pyMaxStr a b ++ "_" ++ t) = some r0 →
          r'.strength = min 1 (r0.strength + 1/10) ∧ 0 ≤ r'.strength ∧
            r'.strength ≤ 1 ∧ r0.strength ≤ r'.strength) := by
      constructor
      · intro hn
        rw [hnew hn]
      · intro r0 h0
        have hb1 : 0 ≤ r0.strength := (hinv _ (lookup_mem h0)).1
        have hb2 : r0.strength ≤ 1 := (hinv _ (lookup_mem h0)).2
        rw [hupd r0 h0]
        refine ⟨rfl, ?_, ?_, ?_⟩
        · show 0 ≤ min 1 (r0.strength + 1/10)
          exact le_min (by norm_num) (by linarith)
        · show min 1 (r0.strength + 1/10) ≤ 1
          exact min_le_left _ _
        · show r0.strength ≤ min 1 (r0.strength + 1/10)
          exact le_min hb2 (by linarith)
    refine ⟨?_, ?_, ?_⟩
    · rw [heq]
      intro p hp
      rcases mem_dictSet hp with h1 | h1
      · rw [h1]
        cases hrel : s.relationships.lookup
            (pyMinStr a b ++ "_" ++ pyMaxStr a b ++ "_" ++ t) with
        | none =>
          have := hstr.1 hrel
          constructor
          · rw [this]
          · rw [this]
            norm_num
        | some r0 =>
          have := hstr.2 r0 hrel
          exact ⟨this.2.1, this.2.2.1⟩
      · exact hinv p h1
    · intro rid s' heq'
      rw [heq] at heq'
      have hrid : (pyMinStr a b ++ "_" ++ pyMaxStr a b ++ "_" ++ t) = rid := by
        have := congrArg Prod.fst heq'
        simpa using this
      have hs' : s' = { s with relationships := dictSet s.relationships (pyMinStr a b ++ "_" ++ pyMaxStr a b ++ "_" ++ t) r' } := by
        have := congrArg Prod.snd heq'
        simpa using this.symm
      subst hrid
      constructor
      · intro hn
        exact ⟨r', by rw [hs']; exact lookup_dictSet_self _ _ _, hstr.1 hn⟩
      · intro r0 h0
        have := hstr.2 r0 h0
        exact ⟨r', by rw [hs']; exact lookup_dictSet_self _ _ _, this.1, this.2.2.2⟩
    · intro k r0 h0
      rw [heq]
      by_cases hk : k = pyMinStr a b ++ "_" ++ pyMaxStr a b ++ "_" ++ t
      · subst hk
        have := hstr.2 r0 h0
        exact ⟨r', lookup_dictSet_self _ _ _, this.2.2.2⟩
      · exact ⟨r0, by rw [lookup_dictSet_ne _ _ _ _ hk]; exact h0, le_refl _⟩
  · have herr : s.add_relationship now a b t =
        (.error "Both entities must exist before creating a relationship", s) := by
      apply add_relationship_error_of_missing
      by_cases ha : (s.entities.lookup a).isSome = true
      · right
        by_cases hb : (s.entities.lookup b).isSome = true
        · exact absurd ⟨ha, hb⟩ hok
        · cases h : s.entities.lookup b
          · rfl
          · exact absurd (by rw [h]; rfl) hb
      · left
        cases h : s.entities.lookup a
        · rfl
        · exact absurd (by rw [h]; rfl) ha
    refine ⟨?_, ?_, ?_⟩
    · rw [herr]
      exact hinv
    · intro rid s' heq'
      rw [herr] at heq'
      have := congrArg Prod.fst heq'
      simp at this
    · intro k r0 h0
      rw [herr]
      exact ⟨r0, h0, le_refl _⟩

/-- C5 witness: concrete instantiation, strengthening the edge created
by the C4 scenario on the two-entity store. -/
theorem c5_strength_invariant_witness :
    (∀ p ∈ storeWithTwoEntities.relationships, 0 ≤ p.2.strength ∧ p.2.strength ≤ 1) ∧
    (∀ p ∈ (storeWithTwoEntities.add_relationship 3 "person_alice" "organization_acme"
        "works_at").2.relationships, 0 ≤ p.2.strength ∧ p.2.strength ≤ 1) :=
  ⟨by decide,
    (c5_strength_invariant storeWithTwoEntities 3 "person_alice" "organization_acme"
      "works_at" (by decide)).1⟩

/-- C7, counterexample to the claim as stated: the source computes the
entity id as `f"{entity_type}_{name.lower().replace(' ', '_')}"` and does
NOT lowercase the type, so for `("John", "Person")` the id is
`"Person_john"`, not the claimed `lowercase(type) + "_" + lowercase(name)`
= `"person_john"`. (Every call site of the repository passes an
all-lowercase type, so the two formulas coincide on those calls.) -/
theorem c7_counterexample :
    (ConversationMemoryStore.empty.add_entity 0 "John" "Person" []).1 = "Person_john" ∧
    claimedEntityId "John" "Person" = "person_john" ∧
    (ConversationMemoryStore.empty.add_entity 0 "John" "Person" []).1 ≠
      claimedEntityId "John" "Person" := by decide

/-- C7 (amended): the entity id equals the type VERBATIM (not lowercased)
followed by `"_"` and the lowercased name with spaces replaced by
underscores; two upserts with the same `(name, type)` return the same id
and leave the key set of the entity dict unchanged after the second call
(at most one record); the second call only touches `last_seen` and
unions in new aliases — name, type, `first_seen` are preserved and no
alias is lost. `add_entity` is a total function, so it never fails. -/
theorem c7_entity_upsert_idempotent (s : ConversationMemoryStore) (now1 now2 : ℚ)
    (name ty : String) (al1 al2 : List String) :
    ∃ s1 s2 e1 e2,
      s.add_entity now1 name ty al1 =
        (ty ++ "_" ++ underscoreSpaces (pyLower name), s1) ∧
      s1.add_entity now2 name ty al2 =
        (ty ++ "_" ++ underscoreSpaces (pyLower name), s2) ∧
      s2.entities.map Prod.fst = s1.entities.map Prod.fst ∧
      s1.entities.lookup (ty ++ "_" ++ underscoreSpaces (pyLower name)) = some e1 ∧
      s2.entities.lookup (ty ++ "_" ++ underscoreSpaces (pyLower name)) = some e2 ∧
      e2.name = e1.name ∧ e2.type = e1.type ∧ e2.first_seen = e1.first_seen ∧
      e2.last_seen = now2 ∧ (∀ x ∈ e1.aliases, x ∈ e2.aliases) := by
  obtain ⟨e1', heq1, _, _⟩ := add_entity_eval s now1 name ty al1
  obtain ⟨e2', heq2, _, hupd2⟩ :=
    add_entity_eval { s with entities := dictSet s.entities (ty ++ "_" ++ underscoreSpaces (pyLower name)) e1' } now2 name ty al2
  have hlook1 : (dictSet s.entities (ty ++ "_" ++ underscoreSpaces (pyLower name)) e1').lookup
      (ty ++ "_" ++ underscoreSpaces (pyLower name)) = some e1' :=
    lookup_dictSet_self _ _ _
  have he2' : e2' = al2.foldl (fun acc x => acc.add_alias x) (e1'.update_seen now2) :=
    hupd2 e1' hlook1
  refine ⟨_, _, e1', e2', heq1, heq2, ?_, hlook1, lookup_dictSet_self _ _ _,
    ?_, ?_, ?_, ?_, ?_⟩
  · exact dictSet_keys_of_lookup_isSome _ _ _ (by rw [hlook1]; rfl)
  · rw [he2', foldl_add_alias_name]
    rfl
  · rw [he2', foldl_add_alias_type]
    rfl
  · rw [he2', foldl_add_alias_first_seen]
    rfl
  · rw [he2', foldl_add_alias_last_seen]
    rfl
  · intro x hx
    rw [he2']
    exact mem_foldl_add_alias_of_mem al2 _ hx

theorem foldl_summary_append (fmt : ℚ → String) (l : List ConversationMessage)
    (init : String) :
    l.foldl (fun context msg =>
      let sender := if msg.is_from_agent then "You (Sofia)" else msg.sender
      context ++ "From: " ++ sender ++ "\n" ++ "Date: " ++ fmt msg.timestamp ++ "\n"
        ++ msg.content ++ "\n\n") init
    = init ++ strJoin (l.map (renderedMessage fmt "You (Sofia)")) := by
  induction l generalizing init with
  | nil => simp [strJoin]
  | cons m rest ih =>
    rw [List.foldl_cons, ih, List.map_cons]
    simp only [strJoin, renderedMessage]
    simp [String.append_assoc]

/-- C8, counterexample to the claim as stated: the source renders agent
messages with the fixed string "You (Sofia)", not the claimed
"You (Agent)", so on a thread containing an agent message the summary
differs from the claimed rendering. -/
theorem c8_counterexample :
    threadForSummary.get_context_summary fmtFixed 5 ≠
      contextSummarySpec fmtFixed "You (Agent)" threadForSummary 5 := by decide

/-- C8 (amended): for every thread and every `max_messages ≥ 1`
(the source default is 5), the context summary equals the claimed
rendering — sort by timestamp ascending (so out-of-order insertions
render in timestamp order), take the last `max_messages`, prefix with
`Subject:`, render From/Date/content per message — with the agent label
"You (Sofia)" in place of the claimed "You (Agent)". (For
`max_messages = 0` the Python slice `[-0:]` would keep ALL messages,
which is why the hypothesis is needed.) -/
theorem c8_context_summary (t : ConversationThread) (fmt : ℚ → String)
    (max_messages : Nat) (h : 1 ≤ max_messages) :
    t.get_context_summary fmt max_messages =
      contextSummarySpec fmt "You (Sofia)" t max_messages := by
  simp only [ConversationThread.get_context_summary, contextSummarySpec]
  have hrecent :
      (if (sortMessagesByTimestamp t.messages).length > max_messages then
        pySliceLast max_messages (sortMessagesByTimestamp t.messages)
      else sortMessagesByTimestamp t.messages) =
      takeLast max_messages (sortMessagesByTimestamp t.messages) := by
    by_cases hlen : (sortMessagesByTimestamp t.messages).length > max_messages
    · rw [if_pos hlen]
      unfold pySliceLast takeLast
      rw [if_neg (by omega)]
    · rw [if_neg hlen]
      unfold takeLast
      rw [Nat.sub_eq_zero_of_le (Nat.le_of_not_lt hlen), List.drop_zero]
  rw [hrecent]
  exact foldl_summary_append fmt _ _

/-- C8 (amended) witness: concrete instantiation at the out-of-order
two-message thread with the default `max_messages = 5`. -/
theorem c8_context_summary_witness :
    1 ≤ 5 ∧
    threadForSummary.get_context_summary fmtFixed 5 =
      contextSummarySpec fmtFixed "You (Sofia)" threadForSummary 5 :=
  ⟨by decide, c8_context_summary threadForSummary fmtFixed 5 (by decide)⟩

theorem runCall_threads (s : ConversationMemoryStore) (c : AddMessageCall) :
    ∃ th', ((runCall s c).2).threads.lookup c.thread_id = some th' ∧
      (∀ tid, tid ≠ c.thread_id →
        ((runCall s c).2).threads.lookup tid = s.threads.lookup tid) ∧
      ∃ m, ((s.threads.lookup c.thread_id = none ∧ th'.messages = [m]) ∨
         (∃ t0, s.threads.lookup c.thread_id = some t0 ∧
            th'.messages = t0.messages ++ [m])) ∧
        m.timestamp = c.now := by
  simp only [runCall, ConversationMemoryStore.add_message,
    ConversationMemoryStore.add_thread, ConversationMemoryStore.extract_entities_from_text,
    ConversationThread.add_message]
  cases hlt : s.threads.lookup c.thread_id with
  | none =>
    refine ⟨_, lookup_dictSet_self _ _ _, fun tid hne => ?_, _, Or.inl ⟨rfl, rfl⟩, rfl⟩
    rw [lookup_dictSet_ne _ _ _ _ hne, lookup_dictSet_ne _ _ _ _ hne]
  | some t0 =>
    refine ⟨_, lookup_dictSet_self _ _ _, fun tid hne => ?_, _,
      Or.inr ⟨t0, rfl, rfl⟩, rfl⟩
    rw [lookup_dictSet_ne _ _ _ _ hne, lookup_dictSet_ne _ _ _ _ hne]

theorem runCall_bounded_step (s : ConversationMemoryStore) (c : AddMessageCall)
    (bound : ℚ) (hb : storeTimesBounded s bound) (hle : bound ≤ c.now) :
    storeTimesBounded (runCall s c).2 c.now := by
  obtain ⟨th', hself, hne, m, hcases, hts⟩ := runCall_threads s c
  intro tid th hl
  by_cases htid : tid = c.thread_id
  · subst htid
    rw [hself] at hl
    injection hl with hl
    subst hl
    rcases hcases with ⟨_, hmsgs⟩ | ⟨t0, hl0, hmsgs⟩
    · rw [hmsgs]
      constructor
      · intro m' hm'
        rw [List.mem_singleton.mp hm', hts]
      · simp [List.chain'_singleton]
    · obtain ⟨hboundold, hchainold⟩ := hb c.thread_id t0 hl0
      rw [hmsgs]
      constructor
      · intro m' hm'
        rcases List.mem_append.mp hm' with h1 | h1
        · exact le_trans (hboundold m' h1) hle
        · rw [List.mem_singleton.mp h1, hts]
      · rw [List.map_append]
        apply List.chain'_append.mpr
        refine ⟨hchainold, by simp [List.chain'_singleton], ?_⟩
        intro x hx y hy
        have hx' : x ∈ t0.messages.map ConversationMessage.timestamp :=
          List.mem_of_mem_getLast? hx
        obtain ⟨mx, hmx, hmx'⟩ := List.mem_map.mp hx'
        have hy' : y = m.timestamp := by
          simp only [List.map_cons, List.map_nil, List.head?] at hy
          injection hy with hy
          exact hy.symm
        rw [hy', hts, ← hmx']
        exact le_trans (hboundold mx hmx) hle
  · rw [hne tid htid] at hl
    obtain ⟨hbold, hchain⟩ := hb tid th hl
    exact ⟨fun m' hm' => le_trans (hbold m' hm') hle, hchain⟩

theorem foldl_runCall_bounded :
    ∀ (calls : List AddMessageCall) (s : ConversationMemoryStore) (bound : ℚ),
    storeTimesBounded s bound →
    List.Chain' (· ≤ ·) (bound :: calls.map AddMessageCall.now) →
    ∃ bound', storeTimesBounded (calls.foldl (fun s c => (runCall s c).2) s) bound'
  | [], s, bound, hb, _ => ⟨bound, hb⟩
  | c :: cs, s, bound, hb, hch => by
    rw [List.map_cons] at hch
    have h1 := List.chain'_cons.mp hch
    exact foldl_runCall_bounded cs ((runCall s c).2) c.now
      (runCall_bounded_step s c bound hb h1.1) h1.2

theorem sortMessages_eq_self_of_chain {msgs : List ConversationMessage}
    (h : List.Chain' (· ≤ ·) (msgs.map ConversationMessage.timestamp)) :
    sortMessagesByTimestamp msgs = msgs := by
  apply List.Sorted.insertionSort_eq
  have hp : List.Pairwise (· ≤ ·) (msgs.map ConversationMessage.timestamp) :=
    List.chain'_iff_pairwise.mp h
  exact List.pairwise_map.mp hp

/-- C9: `add_message` has no timestamp parameter: the stored timestamp
of each created message is the `time.time()` reading of the call itself
(the `now` argument of the model), never a timestamp carried by the
email. Consequently, for any sequence of `add_message` calls whose clock
readings are non-decreasing (`time.time()` under a monotone wall clock),
every thread of the resulting store holds messages whose timestamps are
non-decreasing in insertion order, and the timestamp sort used by the
context summary leaves every such message list unchanged — chronological
order coincides with ingestion order. -/
theorem c9_ingestion_timestamps (calls : List AddMessageCall)
    (hmono : List.Chain' (· ≤ ·) (calls.map AddMessageCall.now)) :
    (∀ (s : ConversationMemoryStore) (c : AddMessageCall),
      ((runCall s c).1).timestamp = c.now) ∧
    (∀ tid th, (runCalls calls).threads.lookup tid = some th →
      List.Chain' (· ≤ ·) (th.messages.map ConversationMessage.timestamp) ∧
      sortMessagesByTimestamp th.messages = th.messages) := by
  refine ⟨fun s c => rfl, ?_⟩
  have hempty : ∀ bound, storeTimesBounded ConversationMemoryStore.empty bound := by
    intro bound tid th hl
    simp [ConversationMemoryStore.empty] at hl
  have hstart : ∃ bound', storeTimesBounded (runCalls calls) bound' := by
    cases calls with
    | nil => exact ⟨0, hempty 0⟩
    | cons c cs =>
      apply foldl_runCall_bounded (c :: cs) ConversationMemoryStore.empty c.now (hempty c.now)
      rw [List.map_cons]
      rw [List.map_cons] at hmono
      exact List.chain'_cons.mpr ⟨le_refl _, hmono⟩
  obtain ⟨bound', hbound⟩ := hstart
  intro tid th hl
  have hth := hbound tid th hl
  exact ⟨hth.2, sortMessages_eq_self_of_chain hth.2⟩

/-- C9 witness: two calls into one thread with clock readings 1 then 2. -/
theorem c9_ingestion_timestamps_witness :
    List.Chain' (· ≤ ·) (callsForC9.map AddMessageCall.now) ∧
    (∀ tid th, (runCalls callsForC9).threads.lookup tid = some th →
      List.Chain' (· ≤ ·) (th.messages.map ConversationMessage.timestamp) ∧
      sortMessagesByTimestamp th.messages = th.messages) := by
  have hch : List.Chain' (· ≤ ·) (callsForC9.map AddMessageCall.now) := by
    simp only [callsForC9, List.map_cons, List.map_nil]
    exact List.chain'_cons.mpr ⟨by norm_num, List.chain'_singleton _⟩
  exact ⟨hch, (c9_ingestion_timestamps callsForC9 hch).2⟩

/-- C3 (code bug): evaluating the date/deadline extraction rule at the
content "Deadline: Friday": the regex finds the capture "Friday", the
stripped date string is nonempty, and the source then executes
`self.memory.add_entity(date_str, "date", metadata={"is_deadline": True})`
— but `add_entity` declares no `metadata` parameter, so the call raises
`TypeError` instead of recording the date entity, and the exception
aborts the remaining extraction (it is caught only by the outer fallback
handler of `process_email`), contradicting the never-raise requirement
of the claim. -/
theorem c3_date_rule_type_error :
    findallDeadline "Deadline: Friday" = ["Friday"] ∧
    pyKwCallOk addEntityParams ["metadata"] = false ∧
    extract_dates_rule "Deadline: Friday" =
      .error "TypeError: add_entity() got an unexpected keyword argument metadata" :=
  ⟨rfl, rfl, rfl⟩
